import Mathlib

/-!
Shallow embedding of the `td` task-management CLI (src/db.rs, src/cli.rs,
src/date.rs).

The SQLite database is modelled as a list of task rows in rowid order
(`Store`).  Each `pub fn` of db.rs becomes a pure function from a store to a
store (plus the outcome it prints, where a claim needs it).  The SQLite
`INTEGER PRIMARY KEY` column is reflected, where a proof needs it, by the
hypothesis that the ids of a store are pairwise distinct.

The chrono date functions are external library calls; they are modelled per
their documented behaviour: the `Local` timezone is modelled as a fixed
offset `off` (seconds east of UTC) threaded through the date functions, and
calendar/day arithmetic uses the standard proleptic-Gregorian civil-date
conversion.  The out-of-range failure of `Utc.timestamp_opt` (timestamps
beyond roughly ±262000 years) is not modelled; no claim touches it.
-/

namespace Td

/-- Task status, from `enum Status` in db.rs. -/
inductive Status where
  | Pending
  | InProgress
  | Completed
  | Cancelled
deriving DecidableEq, Repr

/-- Models `impl From<i64> for Status` in db.rs: decodes the stored status integer;
the wildcard arm panics, modelled as `none`. -/
def statusFromInt (i : Int) : Option Status :=
  if i = 0 then some Status.Pending
  else if i = 1 then some Status.InProgress
  else if i = 2 then some Status.Completed
  else if i = 3 then some Status.Cancelled
  else none

/-- Models `impl From<Status> for i64` in db.rs. -/
def statusToInt : Status → Int
  | Status.Pending => 0
  | Status.InProgress => 1
  | Status.Completed => 2
  | Status.Cancelled => 3

/-- Models `struct Task` in db.rs. -/
structure Task where
  id : Int
  task : String
  status : Status
  priority : Int
  created_at : Int
  due_at : Option Int
deriving DecidableEq, Repr

/-- A raw database row as read back by rusqlite, before status decoding. -/
structure RawRow where
  id : Int
  task : String
  status : Int
  priority : Int
  created_at : Int
  due_at : Option Int
deriving DecidableEq, Repr

/-- Models `impl TryFrom<&Row> for Task` in db.rs: `Status::from` panics on an
out-of-range status code, modelled as `none`. -/
def taskFromRow (r : RawRow) : Option Task :=
  match statusFromInt r.status with
  | some st =>
      some { id := r.id, task := r.task, status := st, priority := r.priority,
             created_at := r.created_at, due_at := r.due_at }
  | none => none

/-- The task table in rowid order. -/
abbrev Store := List Task

/-! ### Date handling (date.rs, chrono modelled as documented) -/

/-- Split a character list on '.' separators, as chrono consumes the literal
dots of the `%d.%m.%Y` format. -/
def splitOnDot : List Char → List (List Char)
  | [] => [[]]
  | c :: rest =>
    if c = '.' then [] :: splitOnDot rest
    else
      match splitOnDot rest with
      | [] => [[c]]
      | g :: gs => (c :: g) :: gs

def isDigits (cs : List Char) : Bool :=
  !cs.isEmpty && cs.all Char.isDigit

def digitsToNat (cs : List Char) : Nat :=
  cs.foldl (fun n c => n * 10 + (c.toNat - 48)) 0

def isLeapYear (y : Nat) : Bool :=
  y % 4 = 0 && (y % 100 != 0 || y % 400 = 0)

def daysInMonth (y m : Nat) : Nat :=
  if m = 2 then (if isLeapYear y then 29 else 28)
  else if m = 4 || m = 6 || m = 9 || m = 11 then 30
  else 31

/-- Civil date to days since 1970-01-01 (proleptic Gregorian). -/
def daysFromCivil (y m d : Int) : Int :=
  let y' : Int := y - (if m ≤ 2 then 1 else 0)
  let era : Int := y'.fdiv 400
  let yoe : Int := y' - era * 400
  let doy : Int := ((153 * (m + (if m > 2 then -3 else 9)) + 2).fdiv 5) + d - 1
  let doe : Int := yoe * 365 + yoe.fdiv 4 - yoe.fdiv 100 + doy
  era * 146097 + doe - 719468

/-- Days since 1970-01-01 back to a civil date (year, month, day). -/
def civilFromDays (z : Int) : Int × Int × Int :=
  let z' : Int := z + 719468
  let era : Int := z'.fdiv 146097
  let doe : Int := z' - era * 146097
  let yoe : Int := (doe - doe.fdiv 1460 + doe.fdiv 36524 - doe.fdiv 146096).fdiv 365
  let y : Int := yoe + era * 400
  let doy : Int := doe - (365 * yoe + yoe.fdiv 4 - yoe.fdiv 100)
  let mp : Int := (5 * doy + 2).fdiv 153
  let d : Int := doy - (153 * mp + 2).fdiv 5 + 1
  let m : Int := mp + (if mp < 10 then 3 else -9)
  (y + (if m ≤ 2 then 1 else 0), m, d)

/-- The `%d.%m.%Y` parse of `NaiveDate::parse_from_str`: two groups of at
most two digits, a year group of digits, and the resulting day.month.year
must be a valid calendar date.  Returns days since the epoch. -/
def parseDMY (s : String) : Except String Int :=
  match splitOnDot s.toList with
  | [ds, ms, ys] =>
    if isDigits ds && isDigits ms && isDigits ys
        && ds.length ≤ 2 && ms.length ≤ 2 then
      let d := digitsToNat ds
      let m := digitsToNat ms
      let y := digitsToNat ys
      if 1 ≤ m && m ≤ 12 && 1 ≤ d && d ≤ daysInMonth y m && y ≤ 262142 then
        Except.ok (daysFromCivil y m d)
      else Except.error "input is out of range"
    else Except.error "input contains invalid characters"
  | _ => Except.error "premature end of input"

/-- Models `parse_input_date` in date.rs: parse `DD.MM.YYYY`, take local midnight
(`off` seconds east of UTC) and return the unix timestamp. -/
def parse_input_date (off : Int) (s : String) : Except String Int :=
  match parseDMY s with
  | Except.ok days => Except.ok (days * 86400 - off)
  | Except.error e => Except.error e

def pad2 (n : Int) : List Char :=
  [Nat.digitChar (n.toNat / 10 % 10), Nat.digitChar (n.toNat % 10)]

def pad4 (n : Int) : List Char :=
  [Nat.digitChar (n.toNat / 1000 % 10), Nat.digitChar (n.toNat / 100 % 10),
   Nat.digitChar (n.toNat / 10 % 10), Nat.digitChar (n.toNat % 10)]

/-- Models `timestamp_to_local_str` in date.rs: convert the UTC timestamp into the
local timezone (`off` seconds east of UTC) and format `%Y-%m-%d`. -/
def timestamp_to_local_str (off : Int) (ts : Int) : String :=
  match civilFromDays ((ts + off).fdiv 86400) with
  | (y, m, d) => String.mk (pad4 y ++ '-' :: pad2 m ++ '-' :: pad2 d)

/-! ### The task store (db.rs) -/

/-- SQLite assigns a fresh `INTEGER PRIMARY KEY` as one more than the
largest rowid in use (1 on an empty table). -/
def nextId (s : Store) : Int :=
  (s.map Task.id).foldr max 0 + 1

/-- Models `add_task` in db.rs: insert a row with the default status 0 (Pending),
priority defaulting to 3, `created_at` the current time, and `due_at` the
parsed due date, silently dropped to NULL when parsing fails
(`due.and_then(|date| parse_input_date(&date).ok())`). -/
def add_task (off now : Int) (s : Store) (task : String) (priority : Option Int)
    (due : Option String) : Store :=
  s ++ [{ id := nextId s, task := task, status := Status.Pending,
          priority := priority.getD 3, created_at := now,
          due_at := due.bind (fun date => (parse_input_date off date).toOption) }]

/-- The effect of `UPDATE tasks SET status = ?1 WHERE id = ?2` on the rows. -/
def applyUpdate (s : Store) (id : Int) (status : Status) : Store :=
  s.map (fun t => if t.id = id then { t with status := status } else t)

/-- Models `update_task_status` in db.rs: run the UPDATE; when zero rows match the
id the `Ok(0)` arm becomes an error and nothing changes.  Returns the new
store with the number of affected rows. -/
def update_task_status (s : Store) (id : Int) (status : Status) :
    Except String (Store × Nat) :=
  let n := s.countP (fun t => t.id = id)
  if n = 0 then Except.error "no rows were updated for the given id"
  else Except.ok (applyUpdate s id status, n)

/-- Models `mark_task_done` in db.rs: set the row to Completed, printing the error
(and leaving the store as is) when the id matches nothing. -/
def mark_task_done (s : Store) (id : Int) : Store :=
  match update_task_status s id Status.Completed with
  | Except.ok (s', _) => s'
  | Except.error _ => s

/-- Models `mark_task_pending` in db.rs (used by Pause). -/
def mark_task_pending (s : Store) (id : Int) : Store :=
  match update_task_status s id Status.Pending with
  | Except.ok (s', _) => s'
  | Except.error _ => s

/-- Models `mark_task_cancelled` in db.rs. -/
def mark_task_cancelled (s : Store) (id : Int) : Store :=
  match update_task_status s id Status.Cancelled with
  | Except.ok (s', _) => s'
  | Except.error _ => s

/-- Ascending comparison on `due_at` with NULLs sorting last. -/
def dueBefore : Option Int → Option Int → Bool
  | some a, some b => a < b
  | some _, none => true
  | none, _ => false

/-- Strict "ranks before" order of the auto-select query
`ORDER BY priority DESC, due_at NULLS LAST, created_at`:
higher priority first, then earlier due date with NULL due dates last, then
earlier creation time. -/
def rankBefore (u v : Task) : Bool :=
  v.priority < u.priority ||
    (u.priority = v.priority &&
      (dueBefore u.due_at v.due_at ||
        (u.due_at = v.due_at && u.created_at < v.created_at)))

/-- The id produced by the `SELECT id ... WHERE status = Pending ORDER BY
... LIMIT 1` query of `select_next_task`: the first Pending row (in rowid
scan order) that no later Pending row strictly outranks.  On full ordering
ties SQLite leaves the pick unspecified; the model takes the earliest row,
which only matters when the ordering key is not injective. -/
def findNextPending (s : Store) : Option Int :=
  match s.filter (fun t => t.status = Status.Pending) with
  | [] => none
  | t :: ts => some (ts.foldl (fun b u => if rankBefore u b then u else b) t).id

/-- What `select_next_task` prints. -/
inductive NextOutcome where
  | setInProgress (id : Int)
  | noTasksToSet
  | noTasksWaiting
deriving DecidableEq, Repr

/-- Models `select_next_task` in db.rs: use the explicit id when given, otherwise
the auto-select query; promote the resulting id to InProgress.  An empty
query reports "No tasks waiting"; a failing update reports "No tasks to set
to next" and changes nothing. -/
def select_next_task (s : Store) (id : Option Int) : Store × NextOutcome :=
  let next_id := match id with
    | some i => some i
    | none => findNextPending s
  match next_id with
  | some i =>
    match update_task_status s i Status.InProgress with
    | Except.ok (s', _) => (s', NextOutcome.setInProgress i)
    | Except.error _ => (s, NextOutcome.noTasksToSet)
  | none => (s, NextOutcome.noTasksWaiting)

/-- Models `get_current_active_task` in db.rs: the first row (in scan order) with
status InProgress, if any. -/
def get_current_active_task (s : Store) : Option Task :=
  s.find? (fun t => t.status = Status.InProgress)

/-- Models `collect_garbage` in db.rs: `DELETE FROM tasks WHERE status = Cancelled`,
returning the surviving rows and the number deleted. -/
def collect_garbage (s : Store) : Store × Nat :=
  (s.filter (fun t => ¬(t.status = Status.Cancelled)),
   s.countP (fun t => t.status = Status.Cancelled))

/-- Models `ORDER BY status DESC, priority DESC` of the default list query as a
total boolean order. -/
def activeViewLE (u v : Task) : Bool :=
  statusToInt v.status < statusToInt u.status ||
    (statusToInt u.status = statusToInt v.status && v.priority ≤ u.priority)

/-- Models `list_tasks` in db.rs: the three SELECT shapes keyed on the two flags.
The ordered query is modelled by a (stable) merge sort with the query's
order; SQLite leaves tie order unspecified, the model keeps scan order. -/
def list_tasks (s : Store) (all completed : Bool) : List Task :=
  match all, completed with
  | true, _ => s
  | false, true => s.filter (fun t => t.status = Status.Completed)
  | false, false =>
      (s.filter (fun t => t.status = Status.Pending ∨ t.status = Status.InProgress)).mergeSort
        activeViewLE

/-! ### The CLI layer (cli.rs) -/

/-- The clap subcommands of cli.rs with their arguments. -/
inductive Command where
  | add (task : String) (priority : Option Int) (due : Option String)
  | list (all completed : Bool)
  | done_ (id : Int) (next : Bool)
  | next (id : Option Int)
  | showActive
  | pause
  | cancel (id : Int) (delete : Bool)
  | gc
deriving DecidableEq, Repr

/-- Models `run` in cli.rs, restricted to its effect on the store.  `active` is
read once, before the command body runs, exactly as in the source. -/
def run (off now : Int) (cmd : Command) (s : Store) : Store :=
  let active := get_current_active_task s
  match cmd with
  | Command.add task priority due => add_task off now s task priority due
  | Command.list _ _ => s
  | Command.done_ id next =>
      let s' := mark_task_done s id
      if next && active.isNone then (select_next_task s' none).1 else s'
  | Command.next id =>
      match active with
      | none => (select_next_task s id).1
      | some _ => s
  | Command.showActive => s
  | Command.pause =>
      match active with
      | some t => mark_task_pending s t.id
      | none => s
  | Command.cancel id delete =>
      let s' := mark_task_cancelled s id
      if delete then (collect_garbage s').1 else s'
  | Command.gc => (collect_garbage s).1

/-! ### Helper lemmas -/

/-- A sample row for the concrete instances of the theorems. -/
def sampleTask (i : Int) (st : Status) (p c : Int) (d : Option Int) : Task :=
  { id := i, task := "t", status := st, priority := p, created_at := c,
    due_at := d }

/-- A raw row with an out-of-range status code, for concrete instances. -/
def badRow : RawRow :=
  { id := 1, task := "t", status := 7, priority := 3, created_at := 0,
    due_at := none }

/-- The number of InProgress rows, the quantity the single-active-task
invariant bounds. -/
def countActive (s : Store) : Nat :=
  s.countP (fun t => t.status = Status.InProgress)

/-- The four Pending rows of the spec's selection example: priorities
1, 2, 5, 4 inserted in that order. -/
def storePrio : Store :=
  [sampleTask 1 Status.Pending 1 10 none, sampleTask 2 Status.Pending 2 20 none,
   sampleTask 3 Status.Pending 5 30 none, sampleTask 4 Status.Pending 4 40 none]

/-- One active task ahead of one pending task. -/
def storeActivePending : Store :=
  [sampleTask 1 Status.InProgress 3 0 none, sampleTask 2 Status.Pending 3 1 none]

/-- An already-Cancelled task next to a Pending one. -/
def storeCancelledPending : Store :=
  [sampleTask 1 Status.Cancelled 3 0 none, sampleTask 2 Status.Pending 3 1 none]

theorem get_current_active_task_eq_none (s : Store) :
    get_current_active_task s = none ↔ countActive s = 0 := by
  simp [get_current_active_task, countActive, List.find?_eq_none,
    List.countP_eq_zero]

theorem countP_eq_zero_of_no_id (s : Store) (id : Int)
    (h : ∀ t ∈ s, t.id ≠ id) : s.countP (fun t => t.id = id) = 0 := by
  simp only [List.countP_eq_zero, decide_eq_true_eq]
  exact h

theorem update_task_status_error (s : Store) (id : Int) (st : Status)
    (h : ∀ t ∈ s, t.id ≠ id) :
    update_task_status s id st =
      Except.error "no rows were updated for the given id" := by
  simp [update_task_status, countP_eq_zero_of_no_id s id h]

/-! ### C5 -/

/-- C5: on an id matching no task, every status-transition path (the
`update_task_status` primitive, and Complete, Pause, Cancel and explicit-id
Advance that route through it) reports the zero-rows-updated error and
returns the store with every task unchanged. -/
theorem notFound_no_mutation (s : Store) (id : Int)
    (h : ∀ t ∈ s, t.id ≠ id) :
    (∀ st : Status, update_task_status s id st =
        Except.error "no rows were updated for the given id") ∧
    mark_task_done s id = s ∧
    mark_task_pending s id = s ∧
    mark_task_cancelled s id = s ∧
    select_next_task s (some id) = (s, NextOutcome.noTasksToSet) := by
  have he := update_task_status_error s id
  refine ⟨fun st => he st h, ?_, ?_, ?_, ?_⟩ <;>
    simp [mark_task_done, mark_task_pending, mark_task_cancelled,
      select_next_task, he _ h]

theorem notFound_no_mutation_witness :
    (∀ t ∈ ([sampleTask 1 Status.Pending 3 0 none] : Store), t.id ≠ 2) ∧
    mark_task_done [sampleTask 1 Status.Pending 3 0 none] 2 =
      [sampleTask 1 Status.Pending 3 0 none] :=
  ⟨by decide,
   (notFound_no_mutation [sampleTask 1 Status.Pending 3 0 none] 2
     (by decide)).2.1⟩

/-! ### C6 -/

/-- C6: with no Pending task in the store, auto-select Advance mutates
nothing and reports that no tasks are waiting. -/
theorem advance_auto_none_available (s : Store)
    (h : ∀ t ∈ s, t.status ≠ Status.Pending) :
    select_next_task s none = (s, NextOutcome.noTasksWaiting) := by
  have hf : s.filter (fun t => t.status = Status.Pending) = [] := by
    simp only [List.filter_eq_nil_iff, decide_eq_true_eq]
    exact h
  simp [select_next_task, findNextPending, hf]

theorem advance_auto_none_available_witness :
    select_next_task [sampleTask 1 Status.Completed 3 0 none] none =
      ([sampleTask 1 Status.Completed 3 0 none], NextOutcome.noTasksWaiting) :=
  advance_auto_none_available _ (by decide)

/-! ### C8 -/

/-- C8: a Create whose due-date string fails to parse still inserts exactly
one new row carrying the requested description and no due date; the
malformed date never fails the insertion. -/
theorem add_task_malformed_date (off now : Int) (s : Store) (task : String)
    (priority : Option Int) (due : String) (e : String)
    (h : parse_input_date off due = Except.error e) :
    add_task off now s task priority (some due) =
      s ++ [{ id := nextId s, task := task, status := Status.Pending,
              priority := priority.getD 3, created_at := now,
              due_at := none }] ∧
    (add_task off now s task priority (some due)).length = s.length + 1 := by
  constructor
  · simp [add_task, h, Except.toOption]
  · simp [add_task, h, Except.toOption]

theorem add_task_malformed_date_witness :
    parse_input_date 0 "9999" = Except.error "premature end of input" ∧
    add_task 0 5 [] "buy milk" none (some "9999") =
      [{ id := 1, task := "buy milk", status := Status.Pending, priority := 3,
         created_at := 5, due_at := none }] :=
  ⟨rfl,
   by
    have h := add_task_malformed_date 0 5 [] "buy milk" none "9999"
      "premature end of input" rfl
    simpa [nextId] using h.1⟩

/-! ### C9 -/

/-- C9: parsing "02.09.2025" as DD.MM.YYYY at local midnight and rendering
the stored timestamp back through the display formatter yields exactly
"2025-09-02", for every local-timezone offset. -/
theorem date_roundtrip (off : Int) :
    (parse_input_date off "02.09.2025").map (timestamp_to_local_str off) =
      Except.ok "2025-09-02" := by
  have h : parseDMY "02.09.2025" = Except.ok 20333 := rfl
  simp only [parse_input_date, h, Except.map, Except.ok.injEq]
  simp only [timestamp_to_local_str]
  rw [show (20333 * 86400 - off + off : Int) = 1756771200 from by omega]
  rfl

/-! ### C10 -/

/-- C10: the status decode is defined exactly on the codes 0,1,2,3 and
panics (models as `none`) elsewhere, so a row with an out-of-range status
code aborts the read; on 0..3 decode and encode are mutually inverse. -/
theorem status_codec_sound :
    (∀ i : Int, (statusFromInt i).isSome ↔ (i = 0 ∨ i = 1 ∨ i = 2 ∨ i = 3)) ∧
    (∀ st : Status, statusFromInt (statusToInt st) = some st) ∧
    (∀ (i : Int) (st : Status), statusFromInt i = some st → statusToInt st = i) ∧
    (∀ r : RawRow, ¬(r.status = 0 ∨ r.status = 1 ∨ r.status = 2 ∨ r.status = 3) →
      taskFromRow r = none) := by
  refine ⟨fun i => ?_, fun st => ?_, fun i st h => ?_, fun r hr => ?_⟩
  · unfold statusFromInt
    split_ifs <;> simp_all
  · cases st <;> rfl
  · unfold statusFromInt at h
    split_ifs at h <;> injection h with h' <;> subst h' <;>
      simp_all [statusToInt]
  · unfold taskFromRow statusFromInt
    push_neg at hr
    obtain ⟨h0, h1, h2, h3⟩ := hr
    simp [h0, h1, h2, h3]

theorem status_codec_sound_witness :
    statusToInt Status.Completed = 2 ∧ taskFromRow badRow = none :=
  ⟨status_codec_sound.2.2.1 2 Status.Completed rfl,
   status_codec_sound.2.2.2 badRow (by decide)⟩

/-! ### C2 -/

theorem dueBefore_irrefl (d : Option Int) : dueBefore d d = false := by
  cases d <;> simp [dueBefore]

theorem rankBefore_irrefl (u : Task) : rankBefore u u = false := by
  simp [rankBefore, dueBefore_irrefl]

theorem rankBefore_asymm {u v : Task} (h : rankBefore u v = true) :
    rankBefore v u = false := by
  cases hu : u.due_at <;> cases hv : v.due_at <;>
    simp_all [rankBefore, dueBefore] <;> omega

/-- Strengthened-accumulator lemma for the LIMIT 1 fold: if `t` outranks
every other candidate and sits among them, the fold returns `t`. -/
theorem foldl_rank_min (t : Task) (l : List Task) (b : Task)
    (hb : b = t ∨ rankBefore t b = true)
    (hl : ∀ u ∈ l, u = t ∨ rankBefore t u = true)
    (hmem : t = b ∨ t ∈ l) :
    l.foldl (fun acc u => if rankBefore u acc then u else acc) b = t := by
  induction l generalizing b with
  | nil =>
    rcases hmem with h | h
    · simp [List.foldl_nil, h.symm]
    · exact absurd h (List.not_mem_nil t)
  | cons u l ih =>
    have hu : u = t ∨ rankBefore t u = true := hl u (by simp)
    have hl' : ∀ w ∈ l, w = t ∨ rankBefore t w = true :=
      fun w hw => hl w (by simp [hw])
    simp only [List.foldl_cons]
    refine ih (if rankBefore u b then u else b) ?_ hl' ?_
    · split
      · exact hu
      · exact hb
    · rcases hmem with h | h
      · left
        have hcond : rankBefore u b = false := by
          rcases hu with rfl | hru
          · rw [← h]; exact rankBefore_irrefl u
          · rw [← h]; exact rankBefore_asymm hru
        simp [hcond, h]
      · rcases List.mem_cons.1 h with rfl | hin
        · by_cases hc : rankBefore t b = true
          · left; simp [hc]
          · rcases hb with rfl | hrb
            · left; simp [rankBefore_irrefl]
            · exact absurd hrb hc
        · right; exact hin

/-- C2: when a Pending task `t` strictly outranks (higher priority, then
earlier due date with NULLs last, then earlier creation) every other
Pending task, the auto-select Advance promotes exactly `t`: the query
returns `t.id` and the store update touches only the rows with that id. -/
theorem advance_auto_selects_top_ranked (s : Store) (t : Task)
    (hmem : t ∈ s) (hpend : t.status = Status.Pending)
    (htop : ∀ u ∈ s, u.status = Status.Pending → u ≠ t →
      rankBefore t u = true) :
    select_next_task s none =
      (applyUpdate s t.id Status.InProgress, NextOutcome.setInProgress t.id) := by
  have hfm : t ∈ s.filter (fun u => u.status = Status.Pending) := by
    simp [List.mem_filter, hmem, hpend]
  cases hfil : s.filter (fun u => u.status = Status.Pending) with
  | nil => rw [hfil] at hfm; exact absurd hfm (List.not_mem_nil t)
  | cons b ts =>
    have hball : ∀ u ∈ b :: ts, u = t ∨ rankBefore t u = true := by
      intro u hu
      rw [← hfil] at hu
      have hus := List.mem_filter.1 hu
      by_cases he : u = t
      · exact Or.inl he
      · exact Or.inr (htop u hus.1 (by simpa using hus.2) he)
    have hfold :
        ts.foldl (fun acc u => if rankBefore u acc then u else acc) b = t := by
      refine foldl_rank_min t ts b (hball b (by simp)) ?_ ?_
      · exact fun u hu => hball u (by simp [hu])
      · rw [hfil] at hfm
        rcases List.mem_cons.1 hfm with h | h
        · exact Or.inl h
        · exact Or.inr h
    have hnext : findNextPending s = some t.id := by
      simp [findNextPending, hfil, hfold]
    have hcnt : ¬ s.countP (fun u => u.id = t.id) = 0 := by
      have : 0 < s.countP (fun u => u.id = t.id) :=
        List.countP_pos_iff.2 ⟨t, hmem, by simp⟩
      omega
    simp [select_next_task, hnext, update_task_status, hcnt]

theorem advance_auto_selects_top_ranked_witness :
    select_next_task storePrio none =
      (applyUpdate storePrio 3 Status.InProgress,
       NextOutcome.setInProgress 3) :=
  advance_auto_selects_top_ranked storePrio
    (sampleTask 3 Status.Pending 5 30 none) (by decide) (by decide) (by decide)

/-! ### C7 -/

theorem activeViewLE_trans : ∀ a b c : Task,
    activeViewLE a b → activeViewLE b c → activeViewLE a c := by
  intro a b c h1 h2
  simp only [activeViewLE, Bool.or_eq_true, Bool.and_eq_true,
    decide_eq_true_eq] at h1 h2 ⊢
  omega

theorem activeViewLE_total : ∀ a b : Task,
    activeViewLE a b || activeViewLE b a := by
  intro a b
  simp only [activeViewLE, Bool.or_eq_true, Bool.and_eq_true,
    decide_eq_true_eq]
  omega

/-- C7: the default ActiveView listing holds exactly the Pending and
InProgress rows, InProgress first and higher priority first within equal
status; the completed listing holds exactly the Completed rows; the `--all`
listing is the whole table. -/
theorem list_tasks_scopes (s : Store) :
    (∀ u, u ∈ list_tasks s false false ↔
      (u ∈ s ∧ (u.status = Status.Pending ∨ u.status = Status.InProgress))) ∧
    (list_tasks s false false).Pairwise (fun u v =>
      (u.status = Status.InProgress ∧ v.status = Status.Pending) ∨
      (u.status = v.status ∧ v.priority ≤ u.priority)) ∧
    (∀ u, u ∈ list_tasks s false true ↔
      (u ∈ s ∧ u.status = Status.Completed)) ∧
    (∀ c, list_tasks s true c = s) := by
  refine ⟨fun u => ?_, ?_, fun u => ?_, fun c => rfl⟩
  · simp [list_tasks, List.mem_filter, and_comm]
  · have hs := @List.sorted_mergeSort Task activeViewLE activeViewLE_trans
      activeViewLE_total
      (s.filter
        (fun t => t.status = Status.Pending ∨ t.status = Status.InProgress))
    refine List.Pairwise.imp_of_mem ?_ hs
    intro a b ha hb hab
    simp only [list_tasks, List.mem_mergeSort, List.mem_filter] at ha hb
    have ha' := ha.2
    have hb' := hb.2
    simp only [decide_eq_true_eq] at ha' hb'
    simp only [activeViewLE, Bool.or_eq_true, Bool.and_eq_true,
      decide_eq_true_eq] at hab
    rcases ha' with ha' | ha' <;> rcases hb' with hb' | hb' <;>
      rw [ha', hb'] at hab ⊢ <;> simp [statusToInt] at hab ⊢ <;> omega
  · simp [list_tasks, List.mem_filter, and_comm]

/-! ### C1 -/

theorem countActive_applyUpdate_le (s : Store) (id : Int) (st : Status)
    (h : st ≠ Status.InProgress) :
    countActive (applyUpdate s id st) ≤ countActive s := by
  induction s with
  | nil => exact Nat.le.refl
  | cons t ts ih =>
    by_cases hid : t.id = id <;>
      simp [applyUpdate, countActive, List.countP_cons, hid, h] at ih ⊢ <;>
      omega

theorem applyUpdate_map_id (s : Store) (id : Int) (st : Status) :
    (applyUpdate s id st).map Task.id = s.map Task.id := by
  induction s with
  | nil => rfl
  | cons t ts ih =>
    simp only [applyUpdate, List.map_cons] at *
    rw [ih]
    congr 1
    split <;> rfl

theorem countP_id_le_one (s : Store) (id : Int)
    (h : (s.map Task.id).Nodup) :
    s.countP (fun t => t.id = id) ≤ 1 := by
  induction s with
  | nil => simp
  | cons t ts ih =>
    simp only [List.map_cons, List.nodup_cons] at h
    by_cases hid : t.id = id
    · have hz : ts.countP (fun u => u.id = id) = 0 := by
        simp only [List.countP_eq_zero, decide_eq_true_eq]
        intro u hu he
        exact h.1 (by
          rw [hid, ← he]
          exact List.mem_map_of_mem Task.id hu)
      simp [List.countP_cons, hid, hz]
    · have := ih h.2
      simp [List.countP_cons, hid]
      omega

theorem countActive_applyUpdate_promote (s : Store) (id : Int) :
    countActive (applyUpdate s id Status.InProgress) ≤
      countActive s + s.countP (fun t => t.id = id) := by
  induction s with
  | nil => exact Nat.le.refl
  | cons t ts ih =>
    by_cases hid : t.id = id <;>
      simp [applyUpdate, countActive, List.countP_cons, hid] at ih ⊢ <;>
      omega

theorem countActive_mark_task_done_le (s : Store) (id : Int) :
    countActive (mark_task_done s id) ≤ countActive s := by
  unfold mark_task_done update_task_status
  by_cases h : s.countP (fun t => t.id = id) = 0
  · simp [h]
  · simp only [h, if_neg h]
    exact countActive_applyUpdate_le s id Status.Completed (by simp)

theorem countActive_mark_task_pending_le (s : Store) (id : Int) :
    countActive (mark_task_pending s id) ≤ countActive s := by
  unfold mark_task_pending update_task_status
  by_cases h : s.countP (fun t => t.id = id) = 0
  · simp [h]
  · simp only [h, if_neg h]
    exact countActive_applyUpdate_le s id Status.Pending (by simp)

theorem countActive_mark_task_cancelled_le (s : Store) (id : Int) :
    countActive (mark_task_cancelled s id) ≤ countActive s := by
  unfold mark_task_cancelled update_task_status
  by_cases h : s.countP (fun t => t.id = id) = 0
  · simp [h]
  · simp only [h, if_neg h]
    exact countActive_applyUpdate_le s id Status.Cancelled (by simp)

theorem map_id_mark_task_done (s : Store) (id : Int) :
    (mark_task_done s id).map Task.id = s.map Task.id := by
  unfold mark_task_done update_task_status
  by_cases h : s.countP (fun t => t.id = id) = 0
  · simp [h]
  · simp only [h, if_neg h]
    exact applyUpdate_map_id s id Status.Completed

theorem countActive_select_next_task_le (s : Store) (oid : Option Int)
    (h : (s.map Task.id).Nodup) :
    countActive (select_next_task s oid).1 ≤ countActive s + 1 := by
  have key : ∀ i : Int,
      countActive
        (match update_task_status s i Status.InProgress with
         | Except.ok (s', _) => (s', NextOutcome.setInProgress i)
         | Except.error _ => (s, NextOutcome.noTasksToSet)).1 ≤
        countActive s + 1 := by
    intro i
    by_cases hz : s.countP (fun t => t.id = i) = 0
    · simp [update_task_status, hz]
    · have h1 := countActive_applyUpdate_promote s i
      have h2 := countP_id_le_one s i h
      simp [update_task_status, hz]
      omega
  rcases oid with _ | i
  · simp only [select_next_task]
    cases hf : findNextPending s with
    | none => simp
    | some i => simpa using key i
  · simpa [select_next_task] using key i

theorem countActive_collect_garbage_le (s : Store) :
    countActive (collect_garbage s).1 ≤ countActive s :=
  List.Sublist.countP_le _ (List.filter_sublist s)

/-- C1: from a store with at most one InProgress row (ids unique, as the
PRIMARY KEY guarantees), every CLI command leaves at most one InProgress
row; and the Next command is refused without mutation whenever an active
task already exists. -/
theorem single_active_invariant (off now : Int) (cmd : Command) (s : Store)
    (hnd : (s.map Task.id).Nodup) (hinv : countActive s ≤ 1) :
    countActive (run off now cmd s) ≤ 1 ∧
    (∀ oid, get_current_active_task s ≠ none →
      run off now (Command.next oid) s = s) := by
  constructor
  · cases cmd with
    | add task priority due =>
      simp only [run, add_task, countActive, List.countP_append] at *
      simp [hinv]
    | list a c => simpa [run] using hinv
    | done_ id next =>
      simp only [run]
      by_cases hc : (next && (get_current_active_task s).isNone) = true
      · rw [if_pos hc]
        have h0 : countActive s = 0 := by
          have hcc := hc
          rw [Bool.and_eq_true] at hcc
          exact (get_current_active_task_eq_none s).1
            (Option.isNone_iff_eq_none.1 hcc.2)
        have h1 : countActive (mark_task_done s id) = 0 :=
          Nat.le_zero.1 (h0 ▸ countActive_mark_task_done_le s id)
        have hnd' : ((mark_task_done s id).map Task.id).Nodup := by
          rw [map_id_mark_task_done]; exact hnd
        have := countActive_select_next_task_le (mark_task_done s id) none hnd'
        omega
      · rw [if_neg hc]
        exact le_trans (countActive_mark_task_done_le s id) hinv
    | next oid =>
      simp only [run]
      cases hact : get_current_active_task s with
      | none =>
        have h0 : countActive s = 0 :=
          (get_current_active_task_eq_none s).1 hact
        have := countActive_select_next_task_le s oid hnd
        show countActive (select_next_task s oid).1 ≤ 1
        omega
      | some t => simpa using hinv
    | showActive => simpa [run] using hinv
    | pause =>
      simp only [run]
      cases hact : get_current_active_task s with
      | none => simpa using hinv
      | some t =>
        exact le_trans (countActive_mark_task_pending_le s t.id) hinv
    | cancel id delete =>
      simp only [run]
      by_cases hd : delete = true
      · rw [if_pos hd]
        exact le_trans (countActive_collect_garbage_le _)
          (le_trans (countActive_mark_task_cancelled_le s id) hinv)
      · rw [if_neg hd]
        exact le_trans (countActive_mark_task_cancelled_le s id) hinv
    | gc =>
      simp only [run]
      exact le_trans (countActive_collect_garbage_le s) hinv
  · intro oid hact
    simp only [run]
    cases h : get_current_active_task s with
    | none => exact absurd h hact
    | some t => rfl

/-! ### C3 -/

/-- C3 refuted: in a store whose active task 1 is completed with the
chain-next flag, no task is InProgress once the completion has been
applied, yet the command performs no chained advance — the Pending task 2
stays Pending, because cli.rs tests `active.is_none()` on the pre-command
snapshot. -/
theorem done_next_after_completion_counterexample :
    countActive (mark_task_done storeActivePending 1) = 0 ∧
    run 0 0 (Command.done_ 1 true) storeActivePending =
      mark_task_done storeActivePending 1 ∧
    run 0 0 (Command.done_ 1 true) storeActivePending ≠
      (select_next_task (mark_task_done storeActivePending 1) none).1 := by
  refine ⟨by decide, by decide, by decide⟩

/-- C3 (amended): Complete with the chain-next option chains into
Advance(auto) exactly when no task had status InProgress at the start of
the command — cli.rs reads the active task before applying the completion,
so an active task completed by this very command still suppresses the
chain. -/
theorem done_next_chains_on_prior_active (off now : Int) (s : Store)
    (id : Int) :
    (countActive s = 0 →
      run off now (Command.done_ id true) s =
        (select_next_task (mark_task_done s id) none).1) ∧
    (countActive s ≠ 0 →
      run off now (Command.done_ id true) s = mark_task_done s id) := by
  constructor
  · intro h0
    have h : get_current_active_task s = none :=
      (get_current_active_task_eq_none s).2 h0
    simp [run, h]
  · intro h0
    cases hact : get_current_active_task s with
    | none => exact absurd ((get_current_active_task_eq_none s).1 hact) h0
    | some t => simp [run, hact]

theorem done_next_chains_on_prior_active_witness :
    countActive ([sampleTask 5 Status.Pending 3 0 none] : Store) = 0 ∧
    run 0 0 (Command.done_ 5 true) [sampleTask 5 Status.Pending 3 0 none] =
      (select_next_task
        (mark_task_done [sampleTask 5 Status.Pending 3 0 none] 5) none).1 ∧
    countActive storeActivePending ≠ 0 ∧
    run 0 0 (Command.done_ 1 true) storeActivePending =
      mark_task_done storeActivePending 1 :=
  ⟨by decide,
   (done_next_chains_on_prior_active 0 0
     [sampleTask 5 Status.Pending 3 0 none] 5).1 (by decide),
   by decide,
   (done_next_chains_on_prior_active 0 0 storeActivePending 1).2 (by decide)⟩

/-! ### C4 -/

/-- C4 refuted: with another task already Cancelled in the store,
Cancel(2) chained with DeleteCancelled removes that one too, so the count
drops by two, not one. -/
theorem cancel_delete_removes_target_counterexample :
    sampleTask 2 Status.Pending 3 1 none ∈ storeCancelledPending ∧
    (sampleTask 2 Status.Pending 3 1 none).id = 2 ∧
    (run 0 0 (Command.cancel 2 true) storeCancelledPending).length ≠
      storeCancelledPending.length - 1 := by
  refine ⟨by decide, rfl, by decide⟩

theorem length_filter_ne_add_countP (s : Store) (id : Int) :
    (s.filter (fun u => ¬(u.id = id))).length +
      s.countP (fun u => u.id = id) = s.length := by
  induction s with
  | nil => rfl
  | cons t ts ih =>
    by_cases hid : t.id = id <;>
      simp [List.filter_cons, List.countP_cons, hid] at ih ⊢ <;> omega

/-- After cancelling the only possibly-Cancelled id, garbage collection
keeps exactly the rows with a different id, untouched. -/
theorem gc_filter_of_only_target (s : Store) (id : Int)
    (h : ∀ u ∈ s, u.status = Status.Cancelled → u.id = id) :
    (applyUpdate s id Status.Cancelled).filter
        (fun t => ¬(t.status = Status.Cancelled)) =
      s.filter (fun t => ¬(t.id = id)) := by
  induction s with
  | nil => rfl
  | cons t ts ih =>
    have ihh := ih (fun u hu => h u (List.mem_cons_of_mem t hu))
    by_cases hid : t.id = id
    · simp [applyUpdate, List.filter_cons, hid] at ihh ⊢
      exact ihh
    · have hst : ¬ t.status = Status.Cancelled :=
        fun hc => hid (h t (List.mem_cons_self t ts) hc)
      simp [applyUpdate, List.filter_cons, hid, hst] at ihh ⊢
      exact ihh

/-- C4 (amended): provided no task other than the target is already
Cancelled, Cancel(id) chained with DeleteCancelled removes exactly the
target: the survivors are precisely the rows with a different id, fields
untouched, and the count drops by one.  Unconditionally, DeleteCancelled
never removes a row whose status is not Cancelled. -/
theorem cancel_delete_removes_target (off now : Int) (s : Store) (id : Int)
    (t : Task) (hnd : (s.map Task.id).Nodup) (hmem : t ∈ s)
    (hid : t.id = id)
    (honly : ∀ u ∈ s, u.status = Status.Cancelled → u.id = id) :
    run off now (Command.cancel id true) s =
      s.filter (fun u => ¬(u.id = id)) ∧
    (run off now (Command.cancel id true) s).length + 1 = s.length ∧
    (∀ s' : Store, ∀ u ∈ s', ¬(u.status = Status.Cancelled) →
      u ∈ (collect_garbage s').1) := by
  have hcnt : ¬ s.countP (fun u => u.id = id) = 0 := by
    have : 0 < s.countP (fun u => u.id = id) :=
      List.countP_pos_iff.2 ⟨t, hmem, by simp [hid]⟩
    omega
  have hmark : mark_task_cancelled s id = applyUpdate s id Status.Cancelled := by
    simp [mark_task_cancelled, update_task_status, hcnt]
  have hrun : run off now (Command.cancel id true) s =
      s.filter (fun u => ¬(u.id = id)) := by
    simp only [run, collect_garbage, hmark, if_pos rfl]
    exact gc_filter_of_only_target s id honly
  refine ⟨hrun, ?_, ?_⟩
  · rw [hrun]
    have h1 := countP_id_le_one s id hnd
    have h2 : 0 < s.countP (fun u => u.id = id) := by omega
    have h3 := length_filter_ne_add_countP s id
    omega
  · intro s' u hu hst
    simp [collect_garbage, List.mem_filter, hu, hst]

theorem cancel_delete_removes_target_witness :
    run 0 0 (Command.cancel 2 true) storeActivePending =
      storeActivePending.filter (fun u => ¬(u.id = 2)) ∧
    (run 0 0 (Command.cancel 2 true) storeActivePending).length + 1 =
      storeActivePending.length :=
  ⟨(cancel_delete_removes_target 0 0 storeActivePending 2
      (sampleTask 2 Status.Pending 3 1 none) (by decide) (by decide) rfl
      (by decide)).1,
   (cancel_delete_removes_target 0 0 storeActivePending 2
      (sampleTask 2 Status.Pending 3 1 none) (by decide) (by decide) rfl
      (by decide)).2.1⟩

theorem single_active_invariant_witness :
    countActive (run 0 0 Command.gc storeActivePending) ≤ 1 ∧
    run 0 0 (Command.next none) storeActivePending = storeActivePending :=
  ⟨(single_active_invariant 0 0 Command.gc storeActivePending
      (by decide) (by decide)).1,
   (single_active_invariant 0 0 (Command.next none) storeActivePending
      (by decide) (by decide)).2 none (by decide)⟩

end Td
